import Mathlib

/-!
# Verification of the concierge execution engine

A shallow embedding in Lean 4 of the `internal/system` command layer and the
`internal/providers` K8s provider of the concierge repository, together with
theorems settling the frozen specification claims about:

* the `Command` data model and its shell rendering (`CommandString`),
* the dry-run shadow worker (`DryRunWorker`),
* the retry middleware (`RunWithRetries`, modelled on `sethvargo/go-retry`'s
  `NewExponential` + `WithMaxDuration` + `DoValue`),
* the exclusion middleware (`RunExclusive`) and its interleaving semantics,
* sequencing helpers (`RunMany`, `MkHomeSubdirectory`),
* the K8s provider bootstrap probe (`needsBootstrap`) and feature
  configuration (`configureFeatures`).

Go `[]byte` values are modelled as `String` (the code only ever converts
between the two), Go `error` values as `Option GoError` (`none` = `nil`),
and Go durations as natural numbers of time units (the code's base backoff
unit, one second, is `1`).
-/

namespace Concierge

/-- Model of Go's `user.User` as used by the code: only the fields the
sources touch (`Uid`, `Gid`, `Username`, `HomeDir`). -/
structure GoUser where
  Uid : String
  Gid : String
  Username : String
  HomeDir : String
deriving DecidableEq

/-- Model of Go `error` values produced by the embedded code.
`errNotInstalled` is the distinguished `ErrNotInstalled` of
`internal/system/dryrun.go`; `msg` is an `fmt.Errorf` with no wrapped cause;
`wrap ctx e` is `fmt.Errorf("ctx: %w", e)`; `retryable e` is
`retry.RetryableError(e)` from `sethvargo/go-retry`. -/
inductive GoError where
  | errNotInstalled : GoError
  | msg (s : String) : GoError
  | wrap (ctx : String) (e : GoError) : GoError
  | retryable (e : GoError) : GoError
deriving DecidableEq

/-- `internal/system/snap.go`: a command to be executed, along with the
user/group to assume and the read-only marker. -/
structure Command where
  Executable : String
  Args : List String
  User : String
  Group : String
  ReadOnly : Bool
deriving DecidableEq

/-- `NewCommand` constructs a command run as the current user/group
(`internal/system/snap.go`). The Go struct literal leaves `ReadOnly` at its
zero value `false`. -/
def NewCommand (executable : String) (args : List String) : Command :=
  { Executable := executable, Args := args, User := "", Group := "", ReadOnly := false }

/-- `NewCommandAs` constructs a command run as the specified user/group;
for the superuser it falls back to `NewCommand`
(`internal/system/snap.go`). -/
def NewCommandAs (user group executable : String) (args : List String) : Command :=
  if user = "root" then
    NewCommand executable args
  else
    { Executable := executable, Args := args, User := user, Group := group, ReadOnly := false }

/-- Characters that `shlex` quoting leaves untouched (modelled from the
POSIX word-safe set used by `canonical/x-go`'s `strutil/shlex`, an external
dependency of the repository). -/
def shlexSafeChar (ch : Char) : Bool :=
  ch.isAlphanum || ch = '@' || ch = '%' || ch = '+' || ch = '=' ||
    ch = ':' || ch = ',' || ch = '.' || ch = '/' || ch = '-' || ch = '_'

/-- Single-word quoting for `shlex.Join` (modelled from the external
`canonical/x-go` dependency): safe words pass through, anything else is
single-quoted with embedded single quotes escaped. -/
def shlexQuote (s : String) : String :=
  if s = "" then "\x27\x27"
  else if s.toList.all shlexSafeChar then s
  else "\x27" ++ String.join (s.toList.map fun ch =>
    if ch = '\x27' then "\x27\"\x27\"\x27" else String.singleton ch) ++ "\x27"

/-- `shlex.Join`: join words with single spaces, quoting each
(modelled from the external `canonical/x-go` dependency). -/
def shlexJoin (words : List String) : String :=
  String.intercalate " " (words.map shlexQuote)

/-- The argument vector assembled by `Command.CommandString`
(`internal/system/snap.go`): a `sudo -u USER -g GROUP` privilege-switch
prefix when a run-as user or group is present, then the executable and its
arguments. -/
def Command.commandArgs (c : Command) : List String :=
  ((if c.User.length > 0 || c.Group.length > 0 then ["sudo"] else []) ++
    (if c.User.length > 0 then ["-u", c.User] else []) ++
    (if c.Group.length > 0 then ["-g", c.Group] else []) ++
    [c.Executable]) ++ c.Args

/-- `Command.CommandString` (`internal/system/snap.go`): the shell line for
the command. The Go code also probes `exec.LookPath` purely for a debug log
line, which does not affect the returned string and is omitted here. -/
def Command.CommandString (c : Command) : String :=
  shlexJoin c.commandArgs

/-! ## The real `Worker` and the dry-run shadow worker

The real `System` worker performs host side effects; for the claims only its
observable behaviour matters, so it is modelled as a bundle of response
functions (one per `Worker` interface method used by `dryrun.go`).  The
dry-run worker's observable behaviour is the returned value, the lines it
appends to its output sink `out`, and the calls it makes on the wrapped real
worker; each method therefore returns a `DryRunResult`. -/

/-- Behaviour of a real `Worker` (`internal/system/runner.go`): the response
each interface method would produce.  `run` returns the Go pair
`([]byte, error)`; the file operations return their `error` value. -/
structure RealWorker where
  user : GoUser
  run : Command → String × Option GoError
  readFile : String → String × Option GoError
  writeFile : String → String → Nat → Option GoError
  removePath : String → Option GoError
  mkdirAll : String → Nat → Option GoError
  chownAll : String → GoUser → Option GoError

/-- One invocation of a wrapped real worker's method, as observed from the
dry-run decorator. -/
inductive RealCall where
  | run (c : Command) : RealCall
  | readFile (filePath : String) : RealCall
  | writeFile (filePath : String) (contents : String) (perm : Nat) : RealCall
  | removePath (path : String) : RealCall
  | mkdirAll (path : String) (perm : Nat) : RealCall
  | chownAll (path : String) (u : GoUser) : RealCall
deriving DecidableEq

/-- Result of one dry-run worker method: the returned value, the lines
appended to the output sink (one entry per `fmt.Fprintln`, without the
trailing newline), and the invocations of the wrapped real worker. -/
structure DryRunResult (α : Type) where
  value : α
  lines : List String
  calls : List RealCall
deriving DecidableEq

/-- `DryRunWorker` (`internal/system/dryrun.go`): wraps a real worker;
`installed` models `exec.LookPath` succeeding for an executable name on the
host's search path. -/
structure DryRunWorker where
  realSystem : RealWorker
  installed : String → Bool

namespace DryRunWorker

/-- `DryRunWorker.runReadOnly` (`internal/system/dryrun.go`): delegate a
read-only command to the real system when the binary is available, otherwise
return `ErrNotInstalled` (Go returns `nil` output, modelled as `""`). -/
def runReadOnly (d : DryRunWorker) (c : Command) : DryRunResult (String × Option GoError) :=
  if d.installed c.Executable then
    { value := d.realSystem.run c, lines := [], calls := [.run c] }
  else
    { value := ("", some .errNotInstalled), lines := [], calls := [] }

/-- `DryRunWorker.Run` (`internal/system/dryrun.go`): read-only commands are
delegated; anything else prints the command string and returns success with
empty output (`[]byte\x7b\x7d`, modelled as `""`). -/
def Run (d : DryRunWorker) (c : Command) : DryRunResult (String × Option GoError) :=
  if c.ReadOnly then
    d.runReadOnly c
  else
    { value := ("", none), lines := [c.CommandString], calls := [] }

/-- `DryRunWorker.WriteFile` (`internal/system/dryrun.go`): prints
`# Write file: <path>` and returns success. -/
def WriteFile (_d : DryRunWorker) (filePath : String) (_contents : String) (_perm : Nat) :
    DryRunResult (Option GoError) :=
  { value := none, lines := ["# Write file: " ++ filePath], calls := [] }

/-- `DryRunWorker.RemovePath` (`internal/system/dryrun.go`): prints
`rm -rf <path>` and returns success. -/
def RemovePath (_d : DryRunWorker) (path : String) : DryRunResult (Option GoError) :=
  { value := none, lines := ["rm -rf " ++ path], calls := [] }

/-- `DryRunWorker.MkdirAll` (`internal/system/dryrun.go`): prints
`mkdir -p <path>` and returns success. -/
def MkdirAll (_d : DryRunWorker) (path : String) (_perm : Nat) : DryRunResult (Option GoError) :=
  { value := none, lines := ["mkdir -p " ++ path], calls := [] }

/-- `DryRunWorker.ChownAll` (`internal/system/dryrun.go`): prints
`chown -R <uid>:<gid> <path>` and returns success. -/
def ChownAll (_d : DryRunWorker) (path : String) (u : GoUser) : DryRunResult (Option GoError) :=
  { value := none, lines := ["chown -R " ++ u.Uid ++ ":" ++ u.Gid ++ " " ++ path], calls := [] }

/-- `DryRunWorker.ReadFile` (`internal/system/dryrun.go`): delegates to the
real system. -/
def ReadFile (d : DryRunWorker) (filePath : String) : DryRunResult (String × Option GoError) :=
  { value := d.realSystem.readFile filePath, lines := [], calls := [.readFile filePath] }

end DryRunWorker

/-! ## Retry middleware

`RunWithRetries` (`internal/system/helpers.go`) composes
`retry.NewExponential(1 * time.Second)`, `retry.WithMaxDuration(maxDuration, …)`
and `retry.DoValue` from the `sethvargo/go-retry` dependency.  The model
uses natural-number time units (1 = one second, the base backoff):

* `NewExponential`: the k-th consultation of the backoff yields
  `base * 2 ^ k`;
* `WithMaxDuration`: with `diff` the remaining budget, a non-positive
  `diff` stops; otherwise the inner value is capped to `diff` (and a
  non-positive inner value is replaced by `diff`);
* `DoValue`: runs the operation; success returns immediately; a retryable
  error consults the backoff — stop returns the *unwrapped* underlying
  error with `nil` output, otherwise the loop sleeps for the backoff value
  and retries.

The operation's own execution time is modelled as zero, the context is
`Background` (never cancelled), and the loop is written with explicit fuel;
`RunWithRetries` supplies `maxDuration + 1` fuel, which the lemmas show is
never exhausted. -/

/-- `retryableError.Unwrap` from `sethvargo/go-retry`. -/
def unwrapRetryable : GoError → GoError
  | .retryable e => e
  | e => e

/-- `retry.WithMaxDuration`'s capping of one backoff step: with `diff` the
remaining budget, a non-positive inner value `v0` or one exceeding `diff`
is replaced by `diff`. -/
def capStep (diff v0 : Nat) : Nat :=
  if v0 = 0 || decide (diff < v0) then diff else v0

/-- Observable outcome of a retried operation: returned output and error,
total time elapsed at return (all of it spent in backoff sleeps), and the
number of attempts performed. -/
structure RetryOutcome where
  output : String
  error : Option GoError
  elapsed : Nat
  attempts : Nat
deriving DecidableEq

/-- The `retry.DoValue` loop over the closure of `RunWithRetries`
(`internal/system/helpers.go`), with `run k` the worker response at the
k-th attempt.  `fuel` bounds the recursion and is shown sufficient in the
lemmas; the fuel-exhausted branch is unreachable from `RunWithRetries`. -/
def retryLoop (run : Nat → String × Option GoError) (maxDuration base : Nat) :
    Nat → Nat → Nat → RetryOutcome
  | 0, k, elapsed => { output := "", error := none, elapsed := elapsed, attempts := k }
  | fuel + 1, k, elapsed =>
    let r := run k
    match r.2 with
    | none => { output := r.1, error := none, elapsed := elapsed, attempts := k + 1 }
    | some e =>
      let rerr := GoError.retryable e
      let diff := maxDuration - elapsed
      if diff = 0 then
        { output := "", error := some (unwrapRetryable rerr), elapsed := elapsed,
          attempts := k + 1 }
      else
        retryLoop run maxDuration base fuel (k + 1) (elapsed + capStep diff (base * 2 ^ k))

/-- `RunWithRetries` (`internal/system/helpers.go`): exponential backoff
starting at one second (`base = 1`), bounded by `maxDuration`. -/
def RunWithRetries (run : Nat → String × Option GoError) (maxDuration : Nat) : RetryOutcome :=
  retryLoop run maxDuration 1 (maxDuration + 1) 0 0

/-! ## Exclusion middleware -/

/-- Mutex operations observable during `RunExclusive`: `cmdMu` guards the
mutex table, `lockProgMutex`/`unlockProgMutex` are the per-executable
exclusion mutex. -/
inductive MutexEvent where
  | lockCmdMu : MutexEvent
  | unlockCmdMu : MutexEvent
  | lockProgMutex (key : String) : MutexEvent
  | unlockProgMutex (key : String) : MutexEvent
deriving DecidableEq

/-- `RunExclusive` (`internal/system/helpers.go`), sequential view: lock
`cmdMu`, look up / lazily create the per-executable mutex, unlock `cmdMu`,
lock that mutex, run the command via the worker, unlock.  The returned
trace lists the mutex operations in program order; they occur for every
worker, the wrapped `w.Run(c)` being called between the lock and the
unlock of the per-executable mutex. -/
def RunExclusive (run : Command → String × Option GoError) (c : Command) :
    (String × Option GoError) × List MutexEvent :=
  (run c,
    [.lockCmdMu, .unlockCmdMu, .lockProgMutex c.Executable, .unlockProgMutex c.Executable])

/-! ## Sequencing helpers -/

/-- `RunMany` (`internal/system/helpers.go`): run commands in sequence,
returning on the first error.  The second component is the list of commands
actually passed to `w.Run`, in execution order. -/
def RunMany (run : Command → String × Option GoError) :
    List Command → Option GoError × List Command
  | [] => (none, [])
  | c :: rest =>
    match (run c).2 with
    | some e => (some e, [c])
    | none =>
      let r := RunMany run rest
      (r.1, c :: r.2)

/-- Go's `path.IsAbs`: a path is absolute when it begins with `/`. -/
def goPathIsAbs (p : String) : Bool :=
  match p.data with
  | [] => false
  | ch :: _ => ch = '/'

/-- Go's `os.ModePerm` = `0777`. -/
def osModePerm : Nat := 0o777

/-- A mutating file-system call made through the `Worker` interface by
`MkHomeSubdirectory`. -/
inductive FsCall where
  | mkdirAll (path : String) (perm : Nat) : FsCall
  | chownAll (path : String) (u : GoUser) : FsCall
deriving DecidableEq

/-- `MkHomeSubdirectory` (`internal/system/helpers.go`): reject absolute
paths, then create `join(home, subdirectory)` recursively and chown
`join(home, parts[0])` (with `parts = strings.Split(subdirectory, "/")`,
which is never empty) to the real user.  `join` abstracts Go's `path.Join`
(an external standard-library function whose cleaning behaviour none of the
claims depend on); `wrap ctx e` models `fmt.Errorf(ctx ++ ": %w", e)`.  The
second component lists the worker's mutating calls in execution order. -/
def MkHomeSubdirectory (join : String → String → String) (w : RealWorker)
    (subdirectory : String) : Option GoError × List FsCall :=
  if goPathIsAbs subdirectory then
    (some (.msg "only relative paths supported"), [])
  else
    let user := w.user
    let dir := join user.HomeDir subdirectory
    match w.mkdirAll dir osModePerm with
    | some e =>
      (some (.wrap ("failed to create directory \x27" ++ dir ++ "\x27") e),
        [.mkdirAll dir osModePerm])
    | none =>
      let parts := subdirectory.splitOn "/"
      let dir2 := if parts.length > 0 then join user.HomeDir (parts.headD "") else dir
      match w.chownAll dir2 user with
      | some e =>
        (some (.wrap ("failed to change ownership of directory \x27" ++ dir2 ++ "\x27") e),
          [.mkdirAll dir osModePerm, .chownAll dir2 user])
      | none => (none, [.mkdirAll dir osModePerm, .chownAll dir2 user])

/-! ## The K8s provider (`internal/providers/k8s.go`)

The provider's interaction with the system is observed as the sequence of
operations it issues through the `Worker`; an operation is either a plain
`Run`, a `Run` wrapped in `WithRetries(maxDuration)` (one issued operation,
whatever the number of attempts the wrapper performs internally), or a
`RemovePath`.  The worker's behaviour is a response function
`Command → String × Option GoError` (deterministic across attempts, as the
mock system used by the repository's own tests is). -/

/-- Go's `strings.Contains(s, substr)`. -/
def goStringsContains (s substr : String) : Bool :=
  decide (List.IsInfix substr.toList s.toList)

/-- Go's `strings.TrimSpace`. -/
def goTrimSpace (s : String) : String :=
  s.trim

/-- An operation issued by the K8s provider through the `Worker`. -/
inductive K8sOp where
  | runCmd (c : Command) : K8sOp
  | runCmdWithRetries (c : Command) (maxDuration : Nat) : K8sOp
  | removePath (path : String) : K8sOp
deriving DecidableEq

namespace K8s

/-- The status probe command `k8s status`. -/
def statusCmd : Command := NewCommand "k8s" ["status"]

/-- The bootstrap command `k8s bootstrap`. -/
def bootstrapCmd : Command := NewCommand "k8s" ["bootstrap"]

/-- The readiness wait `k8s status --wait-ready --timeout 270s`. -/
def statusWaitCmd : Command := NewCommand "k8s" ["status", "--wait-ready", "--timeout", "270s"]

/-- The exact error text `needsBootstrap` recognises in the probe output. -/
def notPartOfCluster : String := "Error: The node is not part of a Kubernetes cluster."

/-- `K8s.needsBootstrap` (`internal/providers/k8s.go`): probe `k8s status`;
report true only when the probe errored *and* its output contains the
recognised not-part-of-a-cluster text. -/
def needsBootstrap (run : Command → String × Option GoError) : Bool :=
  let r := run statusCmd
  if r.2.isSome && goStringsContains r.1 notPartOfCluster then true else false

/-- `K8s.handleExistingContainerd` (`internal/providers/k8s.go`), as the
operations it issues: probe `systemctl is-active containerd.service`, stop
the service when the probe succeeded with output `active`, then remove
`/run/containerd` (errors of the stop and removal are only logged). -/
def handleExistingContainerdOps (run : Command → String × Option GoError) : List K8sOp :=
  let probe := NewCommand "systemctl" ["is-active", "containerd.service"]
  let r := run probe
  [K8sOp.runCmd probe] ++
    (if r.2 = none && goTrimSpace r.1 = "active" then
      [K8sOp.runCmd (NewCommand "systemctl" ["stop", "containerd.service"])]
    else []) ++
    [K8sOp.removePath "/run/containerd"]

/-- `K8s.init` (`internal/providers/k8s.go`), as the operations it issues:
handle a pre-existing containerd, probe via `needsBootstrap` (one plain
`k8s status` run), bootstrap under a 5-minute retry wrap only when the
probe demands it (returning early when the bootstrap ultimately fails),
then the retry-wrapped readiness wait. -/
def initOps (run : Command → String × Option GoError) : List K8sOp :=
  handleExistingContainerdOps run ++ [K8sOp.runCmd statusCmd] ++
    (if needsBootstrap run then
      if ((run bootstrapCmd).2).isSome then [K8sOp.runCmdWithRetries bootstrapCmd 300]
      else [K8sOp.runCmdWithRetries bootstrapCmd 300, K8sOp.runCmdWithRetries statusWaitCmd 300]
    else [K8sOp.runCmdWithRetries statusWaitCmd 300])

/-- Number of `k8s bootstrap` issuances in a list of operations. -/
def countBootstrap (ops : List K8sOp) : Nat :=
  ops.countP fun op =>
    match op with
    | .runCmd c => c = bootstrapCmd
    | .runCmdWithRetries c _ => c = bootstrapCmd
    | .removePath _ => false

/-- One feature's slice of `K8s.configureFeatures`
(`internal/providers/k8s.go`): for each key/value of the feature's
configuration a plain (non-retried) `k8s set feature.key=value`, then one
retry-wrapped `k8s enable feature`. -/
def featureBlock (p : String × List (String × String)) : List K8sOp :=
  p.2.map (fun kv =>
      K8sOp.runCmd (NewCommand "k8s" ["set", p.1 ++ "." ++ kv.1 ++ "=" ++ kv.2])) ++
    [K8sOp.runCmdWithRetries (NewCommand "k8s" ["enable", p.1]) 300]

/-- `K8s.configureFeatures` (`internal/providers/k8s.go`), as the sequence
of operations issued on a run in which every command succeeds (a failure
truncates the sequence via early return, which does not affect iteration
order).  The Go code ranges over the `Features` map and each feature's
inner map; a `FeatureIteration` is one such traversal: the features in the
order the outer `range` produced them, each with its key/value pairs in the
order the inner `range` produced them. -/
def configureFeaturesOps (features : List (String × List (String × String))) : List K8sOp :=
  features.flatMap featureBlock

end K8s

/-- Two feature-map traversals enumerate *the same* Go map: keys are unique
within each, and one is a reordering of the other — the same feature names,
each carrying a reordering of the same key/value pairs.  (The Go
specification leaves the iteration order of `range` over a map
unspecified, so any two such traversals can arise from the same map.) -/
def SameFeatureMap (f1 f2 : List (String × List (String × String))) : Prop :=
  (f1.map Prod.fst).Nodup ∧ (f2.map Prod.fst).Nodup ∧
    ∃ f', f1.Perm f' ∧ List.Forall₂ (fun p q => p.1 = q.1 ∧ p.2.Perm q.2) f' f2

/-! ### Concrete inputs used by the witnesses and counterexamples -/

/-- A concrete non-root user. -/
def sampleUser : GoUser :=
  { Uid := "1000", Gid := "1000", Username := "ubuntu", HomeDir := "/home/ubuntu" }

/-- A concrete real-worker behaviour in which every operation succeeds with
empty output. -/
def sampleRealWorker : RealWorker :=
  { user := sampleUser
    run := fun _ => ("", none)
    readFile := fun _ => ("", none)
    writeFile := fun _ _ _ => none
    removePath := fun _ => none
    mkdirAll := fun _ _ => none
    chownAll := fun _ _ => none }

/-- A dry-run worker wrapping `sampleRealWorker`, on a host where no
executable can be located. -/
def sampleDryRun : DryRunWorker :=
  { realSystem := sampleRealWorker, installed := fun _ => false }

/-- A dry-run worker wrapping `sampleRealWorker`, on a host where every
executable can be located. -/
def sampleDryRunInstalled : DryRunWorker :=
  { realSystem := sampleRealWorker, installed := fun _ => true }

/-- Two traversals of the same two-feature map (features `dns` and
`ingress`, each with empty settings), in the two orders Go's map `range`
may produce. -/
def exFeatures1 : List (String × List (String × String)) := [("dns", []), ("ingress", [])]

/-- See `exFeatures1`: the opposite traversal order. -/
def exFeatures2 : List (String × List (String × String)) := [("ingress", []), ("dns", [])]

/-! ## Interleaving semantics of `RunExclusive`

`RunExclusive` (`internal/system/helpers.go`) is executed concurrently by
many goroutines.  The model: each thread owns a fixed `Command` and walks
the phases of the function's body; the shared state is `cmdMu` (the mutex
guarding the table), the `cmdMutexes` table itself (program name → mutex
identity, mutexes being identified by the order of their lazy creation),
and each mutex's holder.  A thread in phase `running m` is inside the
wrapped `w.Run(c)` call while holding mutex `m`.  The lookup-or-create of
the table entry is one atomic step: in the source it happens strictly
between `cmdMu.Lock()` and `cmdMu.Unlock()`, and no other code touches the
table, so no interleaving can observe an intermediate state. -/

namespace Exclusive

/-- Where a thread is inside `RunExclusive`'s body. -/
inductive Phase where
  | start : Phase
  | haveCmdMu : Phase
  | wantProg (m : Nat) : Phase
  | running (m : Nat) : Phase
  | done : Phase
deriving DecidableEq

/-- Shared state of the process: every thread's phase, the `cmdMu` holder,
the `cmdMutexes` table, the next fresh mutex identity, and each
per-executable mutex's holder. -/
structure SysState (n : Nat) where
  phase : Fin n → Phase
  cmdMu : Option (Fin n)
  table : String → Option Nat
  nextId : Nat
  holder : Nat → Option (Fin n)

/-- Initial state: no thread has started, `cmdMu` free, the lazily-filled
`cmdMutexes` table empty, no mutex held. -/
def initState (n : Nat) : SysState n :=
  { phase := fun _ => .start, cmdMu := none, table := fun _ => none, nextId := 0,
    holder := fun _ => none }

/-- One interleaved step of some thread `t` executing
`RunExclusive(w, cmds t)`. -/
inductive Step (cmds : Fin n → Command) : SysState n → SysState n → Prop where
  | lockCmdMu (t : Fin n) (s : SysState n)
      (hp : s.phase t = .start) (hmu : s.cmdMu = none) :
      Step cmds s { s with phase := Function.update s.phase t .haveCmdMu, cmdMu := some t }
  | lookupProg (t : Fin n) (s : SysState n) (m : Nat)
      (hp : s.phase t = .haveCmdMu) (hmu : s.cmdMu = some t)
      (htab : s.table (cmds t).Executable = some m) :
      Step cmds s { s with phase := Function.update s.phase t (.wantProg m), cmdMu := none }
  | createProg (t : Fin n) (s : SysState n)
      (hp : s.phase t = .haveCmdMu) (hmu : s.cmdMu = some t)
      (htab : s.table (cmds t).Executable = none) :
      Step cmds s { s with
        phase := Function.update s.phase t (.wantProg s.nextId)
        cmdMu := none
        table := fun k => if k = (cmds t).Executable then some s.nextId else s.table k
        nextId := s.nextId + 1 }
  | lockProg (t : Fin n) (s : SysState n) (m : Nat)
      (hp : s.phase t = .wantProg m) (hfree : s.holder m = none) :
      Step cmds s { s with
        phase := Function.update s.phase t (.running m)
        holder := fun j => if j = m then some t else s.holder j }
  | unlockProg (t : Fin n) (s : SysState n) (m : Nat)
      (hp : s.phase t = .running m) :
      Step cmds s { s with
        phase := Function.update s.phase t .done
        holder := fun j => if j = m then none else s.holder j }

/-- States reachable from the initial state by interleaved steps. -/
inductive Reachable (cmds : Fin n → Command) : SysState n → Prop where
  | init : Reachable cmds (initState n)
  | step {s s' : SysState n} :
      Reachable cmds s → Step cmds s s' → Reachable cmds s'

/-- Inductive invariant: a thread waiting on or holding a per-executable
mutex `m` obtained it from the table entry for its own executable, and a
running thread is recorded as its mutex's holder. -/
def Inv (cmds : Fin n → Command) (s : SysState n) : Prop :=
  (∀ t m, (s.phase t = .wantProg m ∨ s.phase t = .running m) →
      s.table (cmds t).Executable = some m) ∧
  (∀ t m, s.phase t = .running m → s.holder m = some t)

theorem inv_init (cmds : Fin n → Command) : Inv cmds (initState n) := by
  refine ⟨fun t m h => ?_, fun t m h => ?_⟩
  · rcases h with h | h <;> simp [initState] at h
  · simp [initState] at h

theorem inv_step {cmds : Fin n → Command} {s s' : SysState n}
    (hinv : Inv cmds s) (hstep : Step cmds s s') : Inv cmds s' := by
  obtain ⟨h1, h2⟩ := hinv
  cases hstep with
  | lockCmdMu t s hp hmu =>
    refine ⟨fun t' m h => ?_, fun t' m h => ?_⟩ <;> dsimp only at h ⊢
    · by_cases ht : t' = t
      · subst ht; rw [Function.update_same] at h
        rcases h with h | h <;> exact absurd h (by simp)
      · rw [Function.update_noteq ht] at h; exact h1 t' m h
    · by_cases ht : t' = t
      · subst ht; rw [Function.update_same] at h; exact absurd h (by simp)
      · rw [Function.update_noteq ht] at h; exact h2 t' m h
  | lookupProg t s m0 hp hmu htab =>
    refine ⟨fun t' m h => ?_, fun t' m h => ?_⟩ <;> dsimp only at h ⊢
    · by_cases ht : t' = t
      · subst ht; rw [Function.update_same] at h
        rcases h with h | h
        · obtain rfl : m0 = m := by injection h
          exact htab
        · exact absurd h (by simp)
      · rw [Function.update_noteq ht] at h; exact h1 t' m h
    · by_cases ht : t' = t
      · subst ht; rw [Function.update_same] at h; exact absurd h (by simp)
      · rw [Function.update_noteq ht] at h; exact h2 t' m h
  | createProg t s hp hmu htab =>
    refine ⟨fun t' m h => ?_, fun t' m h => ?_⟩ <;> dsimp only at h ⊢
    · by_cases ht : t' = t
      · subst ht; rw [Function.update_same] at h
        rcases h with h | h
        · obtain rfl : s.nextId = m := by injection h
          simp
        · exact absurd h (by simp)
      · rw [Function.update_noteq ht] at h
        have hold := h1 t' m h
        by_cases hk : (cmds t').Executable = (cmds t).Executable
        · rw [hk] at hold; rw [htab] at hold; exact absurd hold (by simp)
        · simpa [hk] using hold
    · by_cases ht : t' = t
      · subst ht; rw [Function.update_same] at h; exact absurd h (by simp)
      · rw [Function.update_noteq ht] at h; exact h2 t' m h
  | lockProg t s m0 hp hfree =>
    refine ⟨fun t' m h => ?_, fun t' m h => ?_⟩ <;> dsimp only at h ⊢
    · by_cases ht : t' = t
      · subst ht; rw [Function.update_same] at h
        rcases h with h | h
        · exact absurd h (by simp)
        · have hm : m0 = m := by injection h
          subst hm
          exact h1 t' m0 (Or.inl hp)
      · rw [Function.update_noteq ht] at h; exact h1 t' m h
    · by_cases ht : t' = t
      · subst ht; rw [Function.update_same] at h
        obtain rfl : m0 = m := by injection h
        simp
      · rw [Function.update_noteq ht] at h
        have hold := h2 t' m h
        by_cases hm : m = m0
        · subst hm; rw [hfree] at hold; exact absurd hold (by simp)
        · simpa [hm] using hold
  | unlockProg t s m0 hp =>
    refine ⟨fun t' m h => ?_, fun t' m h => ?_⟩ <;> dsimp only at h ⊢
    · by_cases ht : t' = t
      · subst ht; rw [Function.update_same] at h
        rcases h with h | h <;> exact absurd h (by simp)
      · rw [Function.update_noteq ht] at h; exact h1 t' m h
    · by_cases ht : t' = t
      · subst ht; rw [Function.update_same] at h; exact absurd h (by simp)
      · rw [Function.update_noteq ht] at h
        have hold := h2 t' m h
        by_cases hm : m = m0
        · subst hm
          have hts := h2 t m hp
          rw [hold] at hts
          obtain rfl : t' = t := by injection hts
          exact absurd rfl ht
        · simpa [hm] using hold

theorem inv_reachable {cmds : Fin n → Command} {s : SysState n}
    (h : Reachable cmds s) : Inv cmds s := by
  induction h with
  | init => exact inv_init cmds
  | step _ hstep ih => exact inv_step ih hstep

end Exclusive

/-! ## Behaviour of the retry loop -/

/-- Unfolding equation of `retryLoop` for positive fuel. -/
theorem retryLoop_succ (run : Nat → String × Option GoError) (D base fuel k elapsed : Nat) :
    retryLoop run D base (fuel + 1) k elapsed =
      match (run k).2 with
      | none => { output := (run k).1, error := none, elapsed := elapsed, attempts := k + 1 }
      | some e =>
        if D - elapsed = 0 then
          { output := "", error := some (unwrapRetryable (.retryable e)), elapsed := elapsed,
            attempts := k + 1 }
        else
          retryLoop run D base fuel (k + 1)
            (elapsed + capStep (D - elapsed) (base * 2 ^ k)) := rfl

/-- A first-attempt success returns immediately: one attempt, no backoff
sleep, the operation's output, a nil error. -/
theorem RunWithRetries_first_success (run : Nat → String × Option GoError) (D : Nat)
    (h : (run 0).2 = none) :
    RunWithRetries run D =
      { output := (run 0).1, error := none, elapsed := 0, attempts := 1 } := by
  rw [RunWithRetries, retryLoop_succ, h]

/-- Over an always-failing operation the loop exhausts its deadline: it
returns with elapsed time exactly `maxDuration` (every sleep being capped to
the remaining budget and the attempts themselves modelled as instantaneous),
and its error is the *raw* error of the final attempt — the
`retry.RetryableError` wrapper the closure added is removed on exhaustion. -/
theorem retryLoop_fail {run : Nat → String × Option GoError} (maxDuration base : Nat)
    (hfail : ∀ j, ((run j).2).isSome) :
    ∀ fuel k elapsed, maxDuration - elapsed < fuel → elapsed ≤ maxDuration →
      (retryLoop run maxDuration base fuel k elapsed).elapsed = maxDuration ∧
      (retryLoop run maxDuration base fuel k elapsed).error =
        (run ((retryLoop run maxDuration base fuel k elapsed).attempts - 1)).2 ∧
      k < (retryLoop run maxDuration base fuel k elapsed).attempts := by
  intro fuel
  induction fuel with
  | zero => intro k elapsed hf _; omega
  | succ fuel ih =>
    intro k elapsed hf hle
    obtain ⟨e, he⟩ := Option.isSome_iff_exists.mp (hfail k)
    rw [retryLoop_succ, he]
    dsimp only
    by_cases hd : maxDuration - elapsed = 0
    · rw [if_pos hd]
      refine ⟨?_, ?_, ?_⟩ <;> dsimp only
      · omega
      · simp [unwrapRetryable, he]
      · omega
    · rw [if_neg hd]
      have hv1 : 1 ≤ capStep (maxDuration - elapsed) (base * 2 ^ k) := by
        unfold capStep; split
        · omega
        · rename_i hcond
          simp only [Bool.or_eq_true, decide_eq_true_eq, not_or] at hcond
          omega
      have hvle : capStep (maxDuration - elapsed) (base * 2 ^ k) ≤ maxDuration - elapsed := by
        unfold capStep; split
        · omega
        · rename_i hcond
          simp only [Bool.or_eq_true, decide_eq_true_eq, not_or] at hcond
          omega
      obtain ⟨ha, hb, hc⟩ := ih (k + 1) (elapsed + capStep (maxDuration - elapsed) (base * 2 ^ k))
        (by omega) (by omega)
      exact ⟨ha, hb, by omega⟩

/-! ## The claims -/

/-- **C1**: for every Command not marked read-only, `DryRunWorker.Run`
executes nothing on the host, appends exactly one human-readable
description line (the rendered command) to the output sink, never invokes
the wrapped real Worker's `Run`, and returns empty output with a nil
error; likewise each mutating file operation (`WriteFile`, `MkdirAll`,
`RemovePath`, `ChownAll`) appends exactly one line, invokes the real
Worker's corresponding method zero times (`calls = []`), and returns
nil. -/
theorem dryrun_intercepts_mutations (d : DryRunWorker) (c : Command)
    (hc : c.ReadOnly = false) (filePath contents p1 p2 p3 : String) (perm : Nat) (u : GoUser) :
    d.Run c = { value := ("", none), lines := [c.CommandString], calls := [] } ∧
    d.WriteFile filePath contents perm =
      { value := none, lines := ["# Write file: " ++ filePath], calls := [] } ∧
    d.MkdirAll p1 perm = { value := none, lines := ["mkdir -p " ++ p1], calls := [] } ∧
    d.RemovePath p2 = { value := none, lines := ["rm -rf " ++ p2], calls := [] } ∧
    d.ChownAll p3 u =
      { value := none, lines := ["chown -R " ++ u.Uid ++ ":" ++ u.Gid ++ " " ++ p3],
        calls := [] } := by
  refine ⟨?_, rfl, rfl, rfl, rfl⟩
  simp [DryRunWorker.Run, hc]

/-- Witness for C1 at a concrete dry-run worker, command and paths. -/
theorem dryrun_intercepts_mutations_witness :
    sampleDryRun.Run (NewCommand "snap" ["install", "juju"]) =
      { value := ("", none), lines := ["snap install juju"], calls := [] } ∧
    sampleDryRun.WriteFile "/root/a.txt" "hello" 420 =
      { value := none, lines := ["# Write file: /root/a.txt"], calls := [] } := by
  have h := dryrun_intercepts_mutations sampleDryRun (NewCommand "snap" ["install", "juju"])
    rfl "/root/a.txt" "hello" "/tmp/x" "/tmp/y" "/tmp/z" 420 sampleUser
  refine ⟨?_, h.2.1⟩
  rw [h.1]
  decide

/-- **C2**: for every Command marked read-only, `DryRunWorker.Run`
delegates to the wrapped real Worker's `Run` exactly once
(`calls = [run c]`) and returns its result unchanged when the target
executable can be located; when it cannot, the call fails with the
distinguished `ErrNotInstalled`, without invoking the real Worker and
without writing to the output sink. -/
theorem dryrun_readonly_delegation (d : DryRunWorker) (c : Command) (hc : c.ReadOnly = true) :
    (d.installed c.Executable = true →
      d.Run c = { value := d.realSystem.run c, lines := [], calls := [.run c] }) ∧
    (d.installed c.Executable = false →
      d.Run c =
        { value := ("", some .errNotInstalled), lines := [], calls := [] }) := by
  constructor <;> intro hi <;>
    simp [DryRunWorker.Run, DryRunWorker.runReadOnly, hc, hi]

/-- Witness for C2: a read-only command delegated on a host with the
executable present, and failing with `ErrNotInstalled` on one without. -/
theorem dryrun_readonly_delegation_witness :
    sampleDryRunInstalled.Run { NewCommand "k8s" ["status"] with ReadOnly := true } =
      { value := ("", none), lines := [], calls := [.run { NewCommand "k8s" ["status"] with ReadOnly := true }] } ∧
    sampleDryRun.Run { NewCommand "k8s" ["status"] with ReadOnly := true } =
      { value := ("", some .errNotInstalled), lines := [], calls := [] } := by
  constructor
  · have h := dryrun_readonly_delegation sampleDryRunInstalled
      { NewCommand "k8s" ["status"] with ReadOnly := true } rfl
    exact h.1 rfl
  · have h := dryrun_readonly_delegation sampleDryRun
      { NewCommand "k8s" ["status"] with ReadOnly := true } rfl
    exact h.2 rfl

/-- **C7**: a Command with empty run-as user and group renders with no
privilege-switch prefix (the argument vector is just the executable and
its arguments); a Command constructed via `NewCommandAs` with a non-empty,
non-superuser run-as user renders with a `sudo` prefix; `NewCommandAs`
with the superuser identity `root` renders with no prefix. -/
theorem commandString_privilege_prefix :
    (∀ c : Command, c.User = "" → c.Group = "" →
      c.commandArgs = c.Executable :: c.Args ∧
      c.CommandString = shlexJoin (c.Executable :: c.Args)) ∧
    (∀ user group executable args, user ≠ "" → user ≠ "root" →
      ((NewCommandAs user group executable args).commandArgs).head? = some "sudo") ∧
    (∀ group executable args,
      (NewCommandAs "root" group executable args).commandArgs = executable :: args) := by
  refine ⟨fun c hu hg => ?_, fun user group executable args hne hnr => ?_,
    fun group executable args => ?_⟩
  · constructor
    · simp [Command.commandArgs, hu, hg]
    · rw [Command.CommandString]
      congr 1
      simp [Command.commandArgs, hu, hg]
  · have hlen : 0 < user.length := by
      rcases user with ⟨data⟩
      cases data with
      | nil => exact absurd (by decide) hne
      | cons a l => simp [String.length]
    simp [NewCommandAs, hnr, Command.commandArgs, hlen]
  · simp [NewCommandAs, NewCommand, Command.commandArgs]

/-- Witness for C7 at concrete commands. -/
theorem commandString_privilege_prefix_witness :
    (NewCommand "echo" ["hi"]).commandArgs = ["echo", "hi"] ∧
    ((NewCommandAs "ubuntu" "" "juju" ["status"]).commandArgs).head? = some "sudo" ∧
    (NewCommandAs "root" "root" "apt" ["update"]).commandArgs = ["apt", "update"] := by
  have h := commandString_privilege_prefix
  exact ⟨(h.1 (NewCommand "echo" ["hi"]) rfl rfl).1,
    h.2.1 "ubuntu" "" "juju" ["status"] (by decide) (by decide),
    h.2.2 "root" "apt" ["update"]⟩

/-- **C9**: `RunMany` runs commands in order and stops at the first
failure: when all succeed it returns nil having run every command once in
order; when a first failure occurs, every command before it has run
exactly once, the failing command ran, its error is returned unchanged,
and nothing after it runs. -/
theorem runMany_first_failure (run : Command → String × Option GoError) :
    (∀ cmds : List Command, (∀ c ∈ cmds, (run c).2 = none) →
      RunMany run cmds = (none, cmds)) ∧
    (∀ (pre : List Command) (c : Command) (post : List Command) (e : GoError),
      (∀ c2 ∈ pre, (run c2).2 = none) → (run c).2 = some e →
      RunMany run (pre ++ c :: post) = (some e, pre ++ [c])) := by
  constructor
  · intro cmds h
    induction cmds with
    | nil => rfl
    | cons c rest ih =>
      simp only [RunMany]
      rw [h c (by simp)]
      rw [ih fun c2 hc2 => h c2 (by simp [hc2])]
  · intro pre c post e hpre hc
    induction pre with
    | nil => simp [RunMany, hc]
    | cons p rest ih =>
      simp only [RunMany, List.cons_append]
      rw [hpre p (by simp)]
      dsimp only
      simp only [List.append_eq]
      rw [ih fun c2 hc2 => hpre c2 (by simp [hc2])]

/-- Witness for C9: a concrete three-command sequence whose middle command
fails. -/
theorem runMany_first_failure_witness :
    RunMany
      (fun c => if c.Executable = "bad" then ("", some (GoError.msg "fail")) else ("ok", none))
      [NewCommand "good1" [], NewCommand "bad" [], NewCommand "good2" []] =
      (some (GoError.msg "fail"), [NewCommand "good1" [], NewCommand "bad" []]) := by
  have h := (runMany_first_failure
    (fun c => if c.Executable = "bad" then ("", some (GoError.msg "fail")) else ("ok", none))).2
    [NewCommand "good1" []] (NewCommand "bad" []) [NewCommand "good2" []] (GoError.msg "fail")
    (by decide) (by decide)
  exact h

/-- **C10**: for every absolute path, `MkHomeSubdirectory` returns the
"only relative paths supported" error without invoking the Worker's
`MkdirAll` or `ChownAll` (the call trace is empty); a relative path does
reach the directory-creation call. -/
theorem mkHomeSubdirectory_absolute_rejected (join : String → String → String)
    (w : RealWorker) (subdirectory : String) :
    (goPathIsAbs subdirectory = true →
      MkHomeSubdirectory join w subdirectory =
        (some (.msg "only relative paths supported"), [])) ∧
    (goPathIsAbs subdirectory = false →
      ((MkHomeSubdirectory join w subdirectory).2).head? =
        some (.mkdirAll (join w.user.HomeDir subdirectory) osModePerm)) := by
  constructor
  · intro h
    simp [MkHomeSubdirectory, h]
  · intro h
    rw [MkHomeSubdirectory, if_neg (by simp [h])]
    dsimp only
    split
    · rfl
    · split <;> rfl

/-- Counting `k8s bootstrap` never finds one among the containerd-handling
operations. -/
theorem countBootstrap_handleExisting (run : Command → String × Option GoError) :
    K8s.countBootstrap (K8s.handleExistingContainerdOps run) = 0 := by
  rw [K8s.handleExistingContainerdOps]
  split
  · decide
  · decide

/-- Counting `k8s bootstrap` distributes over concatenation. -/
theorem countBootstrap_append (l1 l2 : List K8sOp) :
    K8s.countBootstrap (l1 ++ l2) = K8s.countBootstrap l1 + K8s.countBootstrap l2 :=
  List.countP_append _ _ _

/-- **C5**: `K8s.init` issues a bootstrap command only when the status
probe errored *and* its output contains the exact recognised
not-part-of-a-cluster text; for every other probe outcome — a successful
probe (e.g. output `Ready`) or any unrecognised text — zero bootstrap
commands are issued; when the probe fails with the recognised text,
exactly one bootstrap command is issued. -/
theorem k8s_bootstrap_gating (run : Command → String × Option GoError) :
    ((run K8s.statusCmd).2 = none ∨
        goStringsContains (run K8s.statusCmd).1 K8s.notPartOfCluster = false →
      K8s.countBootstrap (K8s.initOps run) = 0) ∧
    (((run K8s.statusCmd).2).isSome = true →
      goStringsContains (run K8s.statusCmd).1 K8s.notPartOfCluster = true →
      K8s.countBootstrap (K8s.initOps run) = 1) := by
  have hs : K8s.countBootstrap [K8sOp.runCmd K8s.statusCmd] = 0 := by decide
  have hw : K8s.countBootstrap [K8sOp.runCmdWithRetries K8s.statusWaitCmd 300] = 0 := by decide
  have hb1 : K8s.countBootstrap [K8sOp.runCmdWithRetries K8s.bootstrapCmd 300] = 1 := by decide
  have hb2 : K8s.countBootstrap
      [K8sOp.runCmdWithRetries K8s.bootstrapCmd 300,
        K8sOp.runCmdWithRetries K8s.statusWaitCmd 300] = 1 := by decide
  constructor
  · intro h
    have hfalse : K8s.needsBootstrap run = false := by
      rw [K8s.needsBootstrap]
      rcases h with h | h
      · simp [h]
      · simp [h]
    rw [K8s.initOps, hfalse]
    simp only [Bool.false_eq_true, if_false, countBootstrap_append,
      countBootstrap_handleExisting, hs, hw]
  · intro h1 h2
    have htrue : K8s.needsBootstrap run = true := by
      rw [K8s.needsBootstrap]
      simp [h1, h2]
    rw [K8s.initOps, htrue]
    by_cases hres : ((run K8s.bootstrapCmd).2).isSome = true
    · simp only [hres, if_true, if_pos, countBootstrap_append,
        countBootstrap_handleExisting, hs, hb1]
    · simp only [if_true, if_neg hres, countBootstrap_append,
        countBootstrap_handleExisting, hs, hb2]

/-- Witness for C5: with a probe answering `Ready`, zero bootstrap
commands; with a failing probe printing the recognised text, exactly
one. -/
theorem k8s_bootstrap_gating_witness :
    K8s.countBootstrap (K8s.initOps (fun _ => ("Ready", none))) = 0 ∧
    K8s.countBootstrap (K8s.initOps
      (fun c => if c = K8s.statusCmd
        then (K8s.notPartOfCluster, some (GoError.msg "command error"))
        else ("", none))) = 1 := by
  constructor
  · exact (k8s_bootstrap_gating (fun _ => ("Ready", none))).1 (Or.inl rfl)
  · refine (k8s_bootstrap_gating _).2 (by decide) ?_
    have : goStringsContains K8s.notPartOfCluster K8s.notPartOfCluster = true := by
      simp only [goStringsContains, decide_eq_true_eq]
      exact ⟨[], [], by simp⟩
    simpa using this

/-- **C6**: for an operation failing on every attempt, `RunWithRetries`
with deadline `maxDuration` returns exactly when the elapsed time reaches
the deadline (so elapsed ≥ D, within one backoff step — in this model,
with instantaneous attempts, exactly D), and it surfaces the raw error of
the last attempt, the `RetryableError` wrapper having been removed. -/
theorem runWithRetries_exhaustion (run : Nat → String × Option GoError) (maxDuration : Nat)
    (hfail : ∀ j, ((run j).2).isSome = true) :
    (RunWithRetries run maxDuration).elapsed = maxDuration ∧
    (RunWithRetries run maxDuration).error =
      (run ((RunWithRetries run maxDuration).attempts - 1)).2 := by
  obtain ⟨h1, h2, -⟩ := retryLoop_fail maxDuration 1 hfail (maxDuration + 1) 0 0
    (by omega) (by omega)
  exact ⟨h1, h2⟩

/-- Witness for C6: a constantly failing operation with a 3-unit deadline
returns at elapsed time 3 with the raw last error. -/
theorem runWithRetries_exhaustion_witness :
    (RunWithRetries (fun _ => ("", some (GoError.msg "boom"))) 3).elapsed = 3 ∧
    (RunWithRetries (fun _ => ("", some (GoError.msg "boom"))) 3).error =
      some (GoError.msg "boom") := by
  have h := runWithRetries_exhaustion (fun _ => ("", some (GoError.msg "boom"))) 3
    (fun _ => rfl)
  exact ⟨h.1, h.2⟩

/-- **C3** (counterexample): the claim "no Exclusion mutex is ever
acquired and no retry backoff sleep ever occurs" fails on the code.
`RunExclusive` acquires the per-program mutex unconditionally — also when
the worker is a Dry-Run Worker — and a retry-wrapped *read-only* command
whose executable is missing fails on every attempt, so the retry loop
sleeps until the deadline (elapsed 3 > 0) over more than one attempt. -/
theorem dryrun_exclusion_counterexample :
    MutexEvent.lockProgMutex "snap" ∈
      (RunExclusive (fun c => (sampleDryRun.Run c).value)
        (NewCommand "snap" ["install", "juju"])).2 ∧
    (RunWithRetries
        (fun _ => (sampleDryRun.Run { NewCommand "k8s" ["status"] with ReadOnly := true }).value)
        3).elapsed = 3 ∧
    1 < (RunWithRetries
        (fun _ => (sampleDryRun.Run { NewCommand "k8s" ["status"] with ReadOnly := true }).value)
        3).attempts := by
  refine ⟨by decide, by decide, by decide⟩

/-- **C3** (amended): a retry-wrapped *non-read-only* command through a
Dry-Run Worker performs exactly one attempt and no backoff sleep (the
interception always succeeds immediately); acquisition of the Exclusion
mutex and retries of failing read-only delegations do occur, as the
counterexample shows. -/
theorem dryrun_retry_single_attempt (d : DryRunWorker) (c : Command)
    (hc : c.ReadOnly = false) (maxDuration : Nat) :
    RunWithRetries (fun _ => (d.Run c).value) maxDuration =
      { output := "", error := none, elapsed := 0, attempts := 1 } := by
  have h0 : ((fun _ => (d.Run c).value) 0).2 = none := by
    simp [DryRunWorker.Run, hc]
  rw [RunWithRetries_first_success _ _ h0]
  simp [DryRunWorker.Run, hc]

/-- Witness for the amended C3 at a concrete worker and command. -/
theorem dryrun_retry_single_attempt_witness :
    RunWithRetries (fun _ => (sampleDryRun.Run (NewCommand "snap" ["install", "juju"])).value) 7 =
      { output := "", error := none, elapsed := 0, attempts := 1 } :=
  dryrun_retry_single_attempt sampleDryRun (NewCommand "snap" ["install", "juju"]) rfl 7

/-- **C4** (counterexample): the claim that features are iterated in a
deterministic order, two runs over the same configuration issuing the same
command sequence, fails: `configureFeatures` ranges over a Go map, whose
iteration order is unspecified, and two orders of the same two-feature map
give different command sequences. -/
theorem configureFeatures_order_counterexample :
    SameFeatureMap exFeatures1 exFeatures2 ∧
    K8s.configureFeaturesOps exFeatures1 ≠ K8s.configureFeaturesOps exFeatures2 := by
  refine ⟨⟨by decide, by decide, exFeatures2, List.Perm.swap _ _ _, ?_⟩, by decide⟩
  exact List.Forall₂.cons ⟨rfl, List.Perm.refl _⟩
    (List.Forall₂.cons ⟨rfl, List.Perm.refl _⟩ List.Forall₂.nil)

/-- **C4** (amended): for each feature, its settings are applied by
non-retried `set` commands followed by one retry-wrapped `enable` for that
feature (each feature's block appears contiguously in the issued
sequence), and any two traversals of the same feature map issue
*permutations* of one another — the same multiset of commands, though not
necessarily in the same order, since Go map iteration order is
unspecified. -/
theorem configureFeatures_deterministic_amended
    (f1 f2 : List (String × List (String × String))) (h : SameFeatureMap f1 f2) :
    (K8s.configureFeaturesOps f1).Perm (K8s.configureFeaturesOps f2) ∧
    ∀ p ∈ f1, ∃ pre post,
      K8s.configureFeaturesOps f1 = pre ++ (K8s.featureBlock p ++ post) := by
  obtain ⟨-, -, f', hperm, hall⟩ := h
  constructor
  · refine (hperm.flatMap_right K8s.featureBlock).trans ?_
    clear hperm
    induction hall with
    | nil => exact List.Perm.refl _
    | @cons p q l1 l2 hpq hrest ih =>
      simp only [K8s.configureFeaturesOps, List.flatMap_cons]
      refine List.Perm.append ?_ ih
      obtain ⟨hname, hconf⟩ := hpq
      rcases p with ⟨pn, pc⟩
      rcases q with ⟨qn, qc⟩
      dsimp at hname hconf
      subst hname
      exact List.Perm.append (hconf.map _) (List.Perm.refl _)
  · intro p hp
    obtain ⟨s, t, rfl⟩ := List.append_of_mem hp
    refine ⟨s.flatMap K8s.featureBlock, t.flatMap K8s.featureBlock, ?_⟩
    simp [K8s.configureFeaturesOps, List.flatMap_append, List.flatMap_cons]

/-- Witness for the amended C4 at the two concrete traversals. -/
theorem configureFeatures_deterministic_amended_witness :
    (K8s.configureFeaturesOps exFeatures1).Perm (K8s.configureFeaturesOps exFeatures2) := by
  have h := configureFeatures_deterministic_amended exFeatures1 exFeatures2
    ⟨by decide, by decide, exFeatures2, List.Perm.swap _ _ _,
      List.Forall₂.cons ⟨rfl, List.Perm.refl _⟩
        (List.Forall₂.cons ⟨rfl, List.Perm.refl _⟩ List.Forall₂.nil)⟩
  exact h.1

/-- **C8**: in the interleaving semantics of `RunExclusive`, two threads
never run commands sharing a program name at the same time: in every
reachable state, if two threads are both inside the wrapped `w.Run` and
their commands share an executable, they are the same thread. -/
theorem runExclusive_mutual_exclusion {n : Nat} (cmds : Fin n → Command)
    (s : Exclusive.SysState n) (hs : Exclusive.Reachable cmds s)
    (t1 t2 : Fin n) (m1 m2 : Nat)
    (h1 : s.phase t1 = .running m1) (h2 : s.phase t2 = .running m2)
    (hexe : (cmds t1).Executable = (cmds t2).Executable) : t1 = t2 := by
  obtain ⟨hi1, hi2⟩ := Exclusive.inv_reachable hs
  have e1 := hi1 t1 m1 (Or.inr h1)
  have e2 := hi1 t2 m2 (Or.inr h2)
  rw [hexe, e2] at e1
  have hm : m2 = m1 := by injection e1
  have o1 := hi2 t1 m1 h1
  have o2 := hi2 t2 m2 h2
  rw [hm, o1] at o2
  injection o2

/-- Witness for C8: reach a state in which thread 0 of two threads running
`apt` commands holds the `apt` mutex, and apply the theorem to it. -/
theorem runExclusive_mutual_exclusion_witness : (0 : Fin 2) = 0 := by
  have hr0 : Exclusive.Reachable (fun _ : Fin 2 => NewCommand "apt" ["update"])
      (Exclusive.initState 2) := Exclusive.Reachable.init
  have hr := Exclusive.Reachable.step (Exclusive.Reachable.step (Exclusive.Reachable.step
      hr0
      (Exclusive.Step.lockCmdMu 0 _ rfl rfl))
      (Exclusive.Step.createProg 0 _ rfl rfl rfl))
      (Exclusive.Step.lockProg 0 _ 0 rfl rfl)
  exact runExclusive_mutual_exclusion _ _ hr 0 0 0 0 rfl rfl rfl

/-- Witness for C10: the absolute path `/etc` is rejected with no worker
call; the relative path `snap/juju` reaches `MkdirAll`. -/
theorem mkHomeSubdirectory_absolute_rejected_witness :
    MkHomeSubdirectory (fun a b => a ++ "/" ++ b) sampleRealWorker "/etc" =
      (some (.msg "only relative paths supported"), []) ∧
    ((MkHomeSubdirectory (fun a b => a ++ "/" ++ b) sampleRealWorker "snap/juju").2).head? =
      some (.mkdirAll "/home/ubuntu/snap/juju" osModePerm) := by
  constructor
  · exact (mkHomeSubdirectory_absolute_rejected (fun a b => a ++ "/" ++ b) sampleRealWorker
      "/etc").1 (by decide)
  · have h := (mkHomeSubdirectory_absolute_rejected (fun a b => a ++ "/" ++ b) sampleRealWorker
      "snap/juju").2 (by decide)
    rw [h]
    decide

end Concierge
